import Mathlib

/-!
Shallow embedding of the 3GPP CR-tracking pipeline implemented in `src/main.py`
(with its Flask front-end in `src/app.py` treated as an external collaborator).

The embedding follows the Python source function by function:

* string helpers model the exact Python string operations used by the code
  (`str.strip`, `str.lower`, `in`, `str.startswith`, `str.endswith`,
  `str.replace(' ', '')`, `str.split(',')`, `"\n".join`, `str.isupper`),
  restricted to ASCII text, which is all the pipeline ever manipulates;
* `filter_approved_crs` models the row-filtering and CrReference explosion
  of `src/main.py:118-178` over an already-loaded sheet (the pandas I/O that
  produces the rows is external, the per-row logic is translated verbatim);
* `get_sorted_meeting_folders` models `src/main.py:21-71` over the parsed
  rows of the index listing, with `parseTimestamp` a model of
  `datetime.strptime(_, "%Y/%m/%d %H:%M")` and `sortDesc` a stable
  descending sort modelling `list.sort(key=..., reverse=True)`;
* `process_rp_archive` models `src/main.py:180-296`, with the effectful
  outcomes (HTTP download, zip integrity, archive entry lists, nested-zip
  contents, clause search results, `os.remove` success) supplied by a
  `FetchEnv` oracle and scratch storage modelled as the list of file paths
  currently present;
* `search_docx_for_clauses` models `src/main.py:298-438` from the point
  where the ordered text blocks of the document have been extracted
  (the python-docx traversal is external I/O), including the regex
  `[\d\w\.]+\.[\d\w]+` candidate extraction, the summary-of-change
  extraction and its fallback;
* `mainWorkflow` and `run_complete_workflow` model the two orchestration
  drivers (`src/main.py:566-667` and `src/main.py:479-563`) over folder
  data, with the per-CR document fetch supplied as an oracle.
-/

set_option maxRecDepth 8192

/-! ## Python string primitives -/

/-- Python's default `str.strip` whitespace class (ASCII part). -/
def pyWs (c : Char) : Bool :=
  c = ' ' || c = '\t' || c = '\n' || c = '\r' || c = '\x0b' || c = '\x0c'

/-- Strip characters satisfying `p` from both ends of a character list. -/
def stripBoth (p : Char → Bool) (l : List Char) : List Char :=
  ((l.dropWhile p).reverse.dropWhile p).reverse

/-- Model of Python `s.strip()`. -/
def pyStrip (s : String) : String := String.mk (stripBoth pyWs s.data)

/-- Model of Python `s.lower()` (ASCII). -/
def pyLower (s : String) : String := String.mk (s.data.map Char.toLower)

/-- Boolean infix test on lists (Python's `needle in hay` on strings). -/
def listIsInfixOf (needle : List Char) : List Char → Bool
  | [] => needle.isEmpty
  | c :: rest => List.isPrefixOf needle (c :: rest) || listIsInfixOf needle rest

/-- Model of Python `needle in hay` for strings. -/
def strContains (hay needle : String) : Bool := listIsInfixOf needle.data hay.data

/-- Model of Python `s.startswith(pre)`. -/
def strStartsWith (s pre : String) : Bool := List.isPrefixOf pre.data s.data

/-- Model of Python `s.endswith(suf)`. -/
def strEndsWith (s suf : String) : Bool := List.isSuffixOf suf.data s.data

/-- Case-insensitive containment as written in the source:
`needle in hay.lower()` with an already-lowercase needle. -/
def containsCI (hay needle : String) : Bool := strContains (pyLower hay) needle

/-- Model of Python `s.replace(' ', '')`: removes every space character. -/
def removeSpaces (s : String) : String := String.mk (s.data.filter (fun c => c != ' '))

/-- Helper for `splitComma`: accumulate the current (reversed) field. -/
def splitCommaGo : List Char → List Char → List String
  | [], cur => [String.mk cur.reverse]
  | c :: rest, cur =>
    if c = ',' then String.mk cur.reverse :: splitCommaGo rest []
    else splitCommaGo rest (c :: cur)

/-- Model of Python `s.split(',')` (no collapsing; `""` gives `[""]`). -/
def splitComma (s : String) : List String := splitCommaGo s.data []

/-- Model of Python `"\n".join`-style joining with a separator string. -/
def pyJoin (sep : String) : List String → String
  | [] => ""
  | [x] => x
  | x :: y :: rest => x ++ sep ++ pyJoin sep (y :: rest)

/-- Model of Python `s.isupper()` (ASCII): at least one cased character and
no lowercase character. -/
def pyIsUpper (s : String) : Bool :=
  s.data.any (fun c => c.isAlpha) && s.data.all (fun c => !c.isLower)

/-! ## Manifest filter (`filter_approved_crs`, src/main.py:118-178)

The pandas sheet is modelled as a list of rows restricted to the four
required columns.  A cell is either a genuine string or a non-string value
(number, NaN, ...) carrying the rendering that `str(...)` / `.astype(str)`
would give it (`NaN` renders as `"nan"`). -/

/-- A spreadsheet cell as seen by the filter. -/
inductive Cell
  | str (s : String)
  | nonStrCell (rendered : String)
deriving DecidableEq

/-- Rendering of a cell by `str(cell)` / `.astype(str)`. -/
def cellToStr : Cell → String
  | Cell.str s => s
  | Cell.nonStrCell r => r

/-- Python `isinstance(cell, str)`. -/
def Cell.isStr : Cell → Bool
  | Cell.str _ => true
  | Cell.nonStrCell _ => false

/-- One manifest row restricted to the four required columns:
`CR Pack TDoc`, `WG Tdoc`, `CR Individual TSG decision`, `Spec`. -/
structure ManifestRow where
  rp : Cell
  r4 : Cell
  status : Cell
  spec : Cell
deriving DecidableEq

/-- Row filter of src/main.py:146-153: status `.astype(str).str.strip().str.lower()`
equal to `"approved"` and spec `.astype(str).str.strip()` equal to the spec
number, case-sensitively. -/
def rowPasses (specNumber : String) (row : ManifestRow) : Bool :=
  pyLower (pyStrip (cellToStr row.status)) == "approved" &&
  pyStrip (cellToStr row.spec) == specNumber

/-- Token loop of src/main.py:165-167: for every token whose `strip()` is
non-empty, append `(str(rp), token.strip())`. -/
def explodeTokens (rp : String) : List String → List (String × String)
  | [] => []
  | tok :: rest =>
    if pyStrip tok != "" then (rp, pyStrip tok) :: explodeTokens rp rest
    else explodeTokens rp rest

/-- The CrReference explosion of one passing row (src/main.py:161-167):
if the `WG Tdoc` cell is a string, remove all spaces, split on commas, and
run the token loop; a non-string cell contributes nothing. -/
def explodeRow (row : ManifestRow) : List (String × String) :=
  match row.r4 with
  | Cell.str s => explodeTokens (cellToStr row.rp) (splitComma (removeSpaces s))
  | Cell.nonStrCell _ => []

/-- The per-row iteration of src/main.py:161-167 over the filtered rows. -/
def explodeRows : List ManifestRow → List (String × String)
  | [] => []
  | row :: rest => explodeRow row ++ explodeRows rest

/-- Model of `filter_approved_crs` (src/main.py:118-178) over loaded rows:
keep the rows passing both filters and append each row's explosion. -/
def filter_approved_crs (specNumber : String) (rows : List ManifestRow) :
    List (String × String) :=
  explodeRows (rows.filter (rowPasses specNumber))

/-- Modelled from the claim's words (C2), for comparison with the code:
each *non-empty* token obtained by removing all spaces and splitting on
commas is paired as-is with the row's archive id (no further stripping of
the token). -/
def explodeRowClaimed (row : ManifestRow) : List (String × String) :=
  match row.r4 with
  | Cell.str s =>
    ((splitComma (removeSpaces s)).filter (fun tok => tok != "")).map
      (fun tok => (cellToStr row.rp, tok))
  | Cell.nonStrCell _ => []

/-- The amended per-row explosion: tokens are additionally stripped of
surrounding whitespace, and tokens that are whitespace-only are dropped. -/
def explodeRowAmended (row : ManifestRow) : List (String × String) :=
  match row.r4 with
  | Cell.str s =>
    (((splitComma (removeSpaces s)).map pyStrip).filter (fun tok => tok != "")).map
      (fun tok => (cellToStr row.rp, tok))
  | Cell.nonStrCell _ => []

/-- The claimed filter, assembled from the claim's words. -/
def claimedFilter (specNumber : String) (rows : List ManifestRow) :
    List (String × String) :=
  match rows with
  | [] => []
  | r :: rs =>
    (if rowPasses specNumber r then explodeRowClaimed r else []) ++
      claimedFilter specNumber rs

/-- The amended filter: like the claimed one but with stripped tokens. -/
def amendedFilter (specNumber : String) (rows : List ManifestRow) :
    List (String × String) :=
  match rows with
  | [] => []
  | r :: rs =>
    (if rowPasses specNumber r then explodeRowAmended r else []) ++
      amendedFilter specNumber rs

/-! ### Helper lemmas for the manifest filter -/

theorem explodeTokens_eq (rp : String) (toks : List String) :
    explodeTokens rp toks =
    ((toks.map pyStrip).filter (fun tok => tok != "")).map (fun tok => (rp, tok)) := by
  induction toks with
  | nil => simp [explodeTokens]
  | cons t ts ih =>
    by_cases h : pyStrip t = ""
    · have h1 : (pyStrip t != "") = false := by simp [h]
      simp [explodeTokens, h1, ih]
    · have h1 : (pyStrip t != "") = true := by simp [h]
      simp [explodeTokens, h1, ih]

theorem explodeRow_eq_amended (row : ManifestRow) :
    explodeRow row = explodeRowAmended row := by
  cases hcell : row.r4 with
  | nonStrCell r => simp [explodeRow, explodeRowAmended, hcell]
  | str s => simp [explodeRow, explodeRowAmended, hcell, explodeTokens_eq]

theorem filter_approved_crs_eq_amended (specNumber : String) (rows : List ManifestRow) :
    filter_approved_crs specNumber rows = amendedFilter specNumber rows := by
  unfold filter_approved_crs
  induction rows with
  | nil => simp [explodeRows, amendedFilter]
  | cons r rs ih =>
    by_cases h : rowPasses specNumber r
    · simp [List.filter_cons, h, amendedFilter, explodeRows, ih, explodeRow_eq_amended]
    · simp [List.filter_cons, h, amendedFilter, explodeRows, ih]

theorem explodeRows_append (a b : List ManifestRow) :
    explodeRows (a ++ b) = explodeRows a ++ explodeRows b := by
  induction a with
  | nil => simp [explodeRows]
  | cons r rs ih => simp [explodeRows, ih]

theorem mem_amendedFilter (specNumber : String) (rows : List ManifestRow)
    (q : String × String) (hq : q ∈ amendedFilter specNumber rows) :
    q.2 ≠ "" ∧ ∃ r ∈ rows, rowPasses specNumber r = true ∧ ∃ s, r.r4 = Cell.str s := by
  induction rows with
  | nil => simp [amendedFilter] at hq
  | cons r rs ih =>
    simp only [amendedFilter, List.mem_append] at hq
    rcases hq with hq | hq
    · by_cases h : rowPasses specNumber r
      · simp only [h, if_true] at hq
        cases hcell : r.r4 with
        | nonStrCell rr => simp [explodeRowAmended, hcell] at hq
        | str s =>
          simp only [explodeRowAmended, hcell, List.mem_map, List.mem_filter] at hq
          obtain ⟨tok, ⟨_, htok⟩, rfl⟩ := hq
          refine ⟨by simpa using htok, r, by simp, h, s, hcell⟩
      · simp [h] at hq
    · obtain ⟨h1, r', hr', h2, h3⟩ := ih hq
      exact ⟨h1, r', by simp [hr'], h2, h3⟩

/-! ### Claim C2 -/

/-- C2 counterexample.  The claim states that every *non-empty* token of the
space-stripped, comma-split document-id cell is paired as-is with the archive
id.  On the passing row with document-id cell `"R4-1,\tR4-2"` the claim
predicts the pair `("RP-5", "\tR4-2")`, but `filter_approved_crs` additionally
strips each token (`r4_doc.strip()` in src/main.py:165-167) and returns
`("RP-5", "R4-2")` instead. -/
theorem filter_approved_crs_claim_counterexample :
    rowPasses "38.101-1"
      ⟨Cell.str "RP-5", Cell.str "R4-1,\tR4-2", Cell.str "approved", Cell.str "38.101-1"⟩ = true ∧
    filter_approved_crs "38.101-1"
      [⟨Cell.str "RP-5", Cell.str "R4-1,\tR4-2", Cell.str "approved", Cell.str "38.101-1"⟩] =
      [("RP-5", "R4-1"), ("RP-5", "R4-2")] ∧
    claimedFilter "38.101-1"
      [⟨Cell.str "RP-5", Cell.str "R4-1,\tR4-2", Cell.str "approved", Cell.str "38.101-1"⟩] =
      [("RP-5", "R4-1"), ("RP-5", "\tR4-2")] ∧
    filter_approved_crs "38.101-1"
      [⟨Cell.str "RP-5", Cell.str "R4-1,\tR4-2", Cell.str "approved", Cell.str "38.101-1"⟩] ≠
    claimedFilter "38.101-1"
      [⟨Cell.str "RP-5", Cell.str "R4-1,\tR4-2", Cell.str "approved", Cell.str "38.101-1"⟩] := by
  refine ⟨by decide, by decide, by decide, by decide⟩

/-- C2 (amended): `filter_approved_crs` returns, for each passing row (status
trimmed and lower-cased equal to `"approved"`, spec trimmed equal to the spec
identifier case-sensitively), one pair per token of the space-stripped,
comma-split document-id cell after additionally trimming each token of
surrounding whitespace and dropping whitespace-only tokens, in row order; in
particular the `"R4-111, R4-222,R4-333"` / `"RP-5"` row yields exactly the
three pairs of the claim, in order. -/
theorem filter_approved_crs_amended_explosion (specNumber : String)
    (rows : List ManifestRow) :
    filter_approved_crs specNumber rows = amendedFilter specNumber rows ∧
    filter_approved_crs "38.101-1"
      [⟨Cell.str "RP-5", Cell.str "R4-111, R4-222,R4-333", Cell.str " Approved ",
        Cell.str "38.101-1"⟩] =
      [("RP-5", "R4-111"), ("RP-5", "R4-222"), ("RP-5", "R4-333")] :=
  ⟨filter_approved_crs_eq_amended specNumber rows, by decide⟩

/-! ### Claim C10 -/

/-- C10: a manifest row that passes both filters but whose document-id cell is
not a string contributes zero CrReferences (splicing it into any row list
leaves the output unchanged), and every returned pair has a non-empty
document id originating from a passing row with a string document-id cell. -/
theorem filter_approved_crs_nonstring_cell_dropped (specNumber : String)
    (pre post rows : List ManifestRow) (row : ManifestRow)
    (hpass : rowPasses specNumber row = true) (hns : row.r4.isStr = false) :
    filter_approved_crs specNumber (pre ++ row :: post) =
      filter_approved_crs specNumber pre ++ filter_approved_crs specNumber post ∧
    ∀ q ∈ filter_approved_crs specNumber rows,
      q.2 ≠ "" ∧ ∃ r ∈ rows, rowPasses specNumber r = true ∧ ∃ s, r.r4 = Cell.str s := by
  constructor
  · have hrow : explodeRow row = [] := by
      cases hcell : row.r4 with
      | str s => rw [hcell] at hns; simp [Cell.isStr] at hns
      | nonStrCell r => simp [explodeRow, hcell]
    unfold filter_approved_crs
    rw [List.filter_append, List.filter_cons, explodeRows_append]
    simp [hpass, explodeRows, hrow]
  · intro q hq
    rw [filter_approved_crs_eq_amended] at hq
    exact mem_amendedFilter specNumber rows q hq

/-- Witness for C10 at a concrete manifest: a passing row with a `NaN`
document-id cell (rendered `"nan"` by pandas) between two other rows. -/
theorem filter_approved_crs_nonstring_cell_dropped_witness :
    (filter_approved_crs "38.101-1"
      ([⟨Cell.str "RP-1", Cell.str "R4-7", Cell.str "approved", Cell.str "38.101-1"⟩] ++
        ⟨Cell.str "RP-2", Cell.nonStrCell "nan", Cell.str "approved", Cell.str "38.101-1"⟩ ::
        [⟨Cell.str "RP-3", Cell.str "R4-8", Cell.str "approved", Cell.str "38.101-1"⟩]) =
      filter_approved_crs "38.101-1"
        [⟨Cell.str "RP-1", Cell.str "R4-7", Cell.str "approved", Cell.str "38.101-1"⟩] ++
      filter_approved_crs "38.101-1"
        [⟨Cell.str "RP-3", Cell.str "R4-8", Cell.str "approved", Cell.str "38.101-1"⟩]) ∧
    ∀ q ∈ filter_approved_crs "38.101-1"
        ([⟨Cell.str "RP-1", Cell.str "R4-7", Cell.str "approved", Cell.str "38.101-1"⟩] ++
          ⟨Cell.str "RP-2", Cell.nonStrCell "nan", Cell.str "approved", Cell.str "38.101-1"⟩ ::
          [⟨Cell.str "RP-3", Cell.str "R4-8", Cell.str "approved", Cell.str "38.101-1"⟩]),
      q.2 ≠ "" ∧ ∃ r ∈
        ([⟨Cell.str "RP-1", Cell.str "R4-7", Cell.str "approved", Cell.str "38.101-1"⟩] ++
          ⟨Cell.str "RP-2", Cell.nonStrCell "nan", Cell.str "approved", Cell.str "38.101-1"⟩ ::
          [⟨Cell.str "RP-3", Cell.str "R4-8", Cell.str "approved", Cell.str "38.101-1"⟩]),
        rowPasses "38.101-1" r = true ∧ ∃ s, r.r4 = Cell.str s :=
  filter_approved_crs_nonstring_cell_dropped "38.101-1"
    [⟨Cell.str "RP-1", Cell.str "R4-7", Cell.str "approved", Cell.str "38.101-1"⟩]
    [⟨Cell.str "RP-3", Cell.str "R4-8", Cell.str "approved", Cell.str "38.101-1"⟩]
    ([⟨Cell.str "RP-1", Cell.str "R4-7", Cell.str "approved", Cell.str "38.101-1"⟩] ++
      ⟨Cell.str "RP-2", Cell.nonStrCell "nan", Cell.str "approved", Cell.str "38.101-1"⟩ ::
      [⟨Cell.str "RP-3", Cell.str "R4-8", Cell.str "approved", Cell.str "38.101-1"⟩])
    ⟨Cell.str "RP-2", Cell.nonStrCell "nan", Cell.str "approved", Cell.str "38.101-1"⟩
    (by decide) (by decide)

/-! ## Folder discoverer (`get_sorted_meeting_folders`, src/main.py:21-71)

The BeautifulSoup parse of the index page is external I/O; the embedding
starts from the parsed table rows.  Each row optionally carries a link with
its visible text, its `class` attribute (absent, or a possibly empty list of
class names), its `href`, and the text of the next table cell (the
modification date). -/

/-- The link data of one table row of the index listing. -/
structure LinkInfo where
  text : String
  classAttr : Option (List String)
  href : Option String
  dateCell : Option String
deriving DecidableEq

/-- One table row: `none` models a row without a link. -/
structure IndexRow where
  link : Option LinkInfo
deriving DecidableEq

/-- Python truthiness of `link.get('class')`: falsy when absent or `[]`. -/
def classFalsy : Option (List String) → Bool
  | none => true
  | some l => l.isEmpty

/-- Days in a month, for the validation performed by the datetime constructor. -/
def isLeapYear (y : Nat) : Bool := y % 4 == 0 && (y % 100 != 0 || y % 400 == 0)

/-- Number of days of month `m` in year `y`. -/
def daysInMonth (y m : Nat) : Nat :=
  if m == 2 then (if isLeapYear y then 29 else 28)
  else if m == 4 || m == 6 || m == 9 || m == 11 then 30 else 31

/-- Numeric value of a digit character. -/
def digitVal (c : Char) : Nat := c.toNat - '0'.toNat

/-- Maximal-munch one- or two-digit number (the `%m`/`%d`/`%H`/`%M`
sub-patterns of CPython strptime accept one or two digits). -/
def take2Digits : List Char → Option (Nat × List Char)
  | [] => none
  | [c] => if c.isDigit then some (digitVal c, []) else none
  | c1 :: c2 :: rest =>
    if c1.isDigit then
      if c2.isDigit then some (digitVal c1 * 10 + digitVal c2, rest)
      else some (digitVal c1, c2 :: rest)
    else none

/-- Expect one literal character. -/
def expectChar (c : Char) : List Char → Option (List Char)
  | [] => none
  | x :: rest => if x = c then some rest else none

/-- Model of `datetime.strptime(s, "%Y/%m/%d %H:%M")` (src/main.py:58)
followed by ordering-faithful encoding of the resulting `datetime` as a
natural number.  `%Y` is exactly four digits; the other fields are one or
two digits; the whole string must be consumed; ranges are validated as
CPython does (including day-of-month and the `MINYEAR` bound). -/
def parseTimestamp (s : String) : Option Nat := do
  match s.data with
  | c1 :: c2 :: c3 :: c4 :: rest =>
    if c1.isDigit && c2.isDigit && c3.isDigit && c4.isDigit then
      let y := ((digitVal c1 * 10 + digitVal c2) * 10 + digitVal c3) * 10 + digitVal c4
      let r1 ← expectChar '/' rest
      let (m, r2) ← take2Digits r1
      let r3 ← expectChar '/' r2
      let (d, r4) ← take2Digits r3
      let r5 ← expectChar ' ' r4
      let (hh, r6) ← take2Digits r5
      let r7 ← expectChar ':' r6
      let (mm, r8) ← take2Digits r7
      if r8 = [] && 1 ≤ y && 1 ≤ m && m ≤ 12 && 1 ≤ d && d ≤ daysInMonth y m &&
          hh ≤ 23 && mm ≤ 59 then
        pure ((((y * 12 + (m - 1)) * 31 + (d - 1)) * 24 + hh) * 60 + mm)
      else none
    else none
  | _ => none

/-- One iteration of the row loop of src/main.py:37-62: skip rows without a
link, require the stripped link text to start with `TSGR_` and the link to
carry no (truthy) class, require an href and a following date cell, and
parse the stripped date text; any failure skips the row. -/
def rowEntry (r : IndexRow) : Option (Nat × String) :=
  match r.link with
  | none => none
  | some l =>
    if strStartsWith (pyStrip l.text) "TSGR_" && classFalsy l.classAttr then
      match l.href with
      | none => none
      | some href =>
        if href = "" then none
        else
          match l.dateCell with
          | none => none
          | some ds =>
            match parseTimestamp (pyStrip ds) with
            | none => none
            | some dt => some (dt, href)
    else none

/-- The `folders_with_dates` list of src/main.py:34-62. -/
def collectFolders (rows : List IndexRow) : List (Nat × String) :=
  rows.filterMap rowEntry

/-- Stable insertion step for the descending sort: an element moves past
exactly the strictly smaller keys, so equal keys keep input order. -/
def insertDesc (x : Nat × String) : List (Nat × String) → List (Nat × String)
  | [] => [x]
  | y :: ys => if y.1 ≤ x.1 then x :: y :: ys else y :: insertDesc x ys

/-- Model of `list.sort(key=lambda x: x[0], reverse=True)` (src/main.py:65):
a stable sort by key, descending. -/
def sortDesc : List (Nat × String) → List (Nat × String)
  | [] => []
  | x :: xs => insertDesc x (sortDesc xs)

/-- Model of `get_sorted_meeting_folders` (src/main.py:21-71) over parsed
index rows: collect the qualifying rows, sort them by timestamp descending
(stable), and return the hrefs. -/
def get_sorted_meeting_folders (rows : List IndexRow) : List String :=
  (sortDesc (collectFolders rows)).map Prod.snd

/-! ### Helper lemmas for the folder discoverer -/

theorem mem_insertDesc (x z : Nat × String) (l : List (Nat × String)) :
    z ∈ insertDesc x l ↔ z = x ∨ z ∈ l := by
  induction l with
  | nil => simp [insertDesc]
  | cons y ys ih =>
    by_cases h : y.1 ≤ x.1
    · simp [insertDesc, h]
    · simp [insertDesc, h, ih]
      tauto

theorem insertDesc_perm (x : Nat × String) (l : List (Nat × String)) :
    List.Perm (insertDesc x l) (x :: l) := by
  induction l with
  | nil => simp [insertDesc]
  | cons y ys ih =>
    by_cases h : y.1 ≤ x.1
    · simp [insertDesc, h]
    · simp only [insertDesc, h, if_neg, if_false]
      exact (ih.cons y).trans (List.Perm.swap x y ys)

theorem sortDesc_perm (l : List (Nat × String)) : List.Perm (sortDesc l) l := by
  induction l with
  | nil => simp [sortDesc]
  | cons x xs ih => exact (insertDesc_perm x (sortDesc xs)).trans (ih.cons x) |>.trans (by rfl)

theorem insertDesc_pairwise (x : Nat × String) (l : List (Nat × String))
    (hl : l.Pairwise (fun a b => b.1 ≤ a.1)) :
    (insertDesc x l).Pairwise (fun a b => b.1 ≤ a.1) := by
  induction l with
  | nil => simp [insertDesc]
  | cons y ys ih =>
    rcases List.pairwise_cons.mp hl with ⟨hy, hys⟩
    by_cases h : y.1 ≤ x.1
    · rw [insertDesc, if_pos h]
      refine List.pairwise_cons.mpr ⟨?_, hl⟩
      intro z hz
      rcases List.mem_cons.mp hz with rfl | hz
      · exact h
      · exact le_trans (hy z hz) h
    · rw [insertDesc, if_neg h]
      refine List.pairwise_cons.mpr ⟨?_, ih hys⟩
      intro z hz
      rcases (mem_insertDesc x z ys).mp hz with rfl | hz
      · exact le_of_lt (Nat.lt_of_not_le h)
      · exact hy z hz

theorem sortDesc_pairwise (l : List (Nat × String)) :
    (sortDesc l).Pairwise (fun a b => b.1 ≤ a.1) := by
  induction l with
  | nil => simp [sortDesc]
  | cons x xs ih => exact insertDesc_pairwise x (sortDesc xs) ih

theorem filter_insertDesc (x : Nat × String) (l : List (Nat × String)) (t : Nat) :
    (insertDesc x l).filter (fun p => p.1 == t) =
    (if x.1 == t then [x] else []) ++ l.filter (fun p => p.1 == t) := by
  induction l with
  | nil =>
    by_cases h : x.1 = t
    · simp [insertDesc, h, List.filter_cons]
    · simp [insertDesc, h, List.filter_cons]
  | cons y ys ih =>
    by_cases h : y.1 ≤ x.1
    · rw [insertDesc, if_pos h]
      by_cases hx : x.1 = t
      · simp [List.filter_cons, hx]
      · simp [List.filter_cons, hx]
    · have hxy : x.1 < y.1 := Nat.lt_of_not_le h
      simp only [insertDesc, h, if_false, List.filter_cons, ih]
      by_cases hy : y.1 = t
      · have hx : (x.1 == t) = false := by
          have : x.1 ≠ t := by omega
          simp [this]
        simp [hy, hx]
      · have hy2 : (y.1 == t) = false := by simp [hy]
        simp [hy2]

theorem filter_sortDesc (l : List (Nat × String)) (t : Nat) :
    (sortDesc l).filter (fun p => p.1 == t) = l.filter (fun p => p.1 == t) := by
  induction l with
  | nil => simp [sortDesc]
  | cons x xs ih =>
    rw [sortDesc, filter_insertDesc, ih, List.filter_cons]
    by_cases h : x.1 = t
    · simp [h]
    · have h2 : (x.1 == t) = false := by simp [h]
      simp [h2]

theorem rowEntry_none_of_unparseable (r : IndexRow) (l : LinkInfo) (ds : String)
    (hlink : r.link = some l) (hdate : l.dateCell = some ds)
    (hparse : parseTimestamp (pyStrip ds) = none) :
    rowEntry r = none := by
  simp only [rowEntry, hlink]
  by_cases hq : strStartsWith (pyStrip l.text) "TSGR_" && classFalsy l.classAttr
  · simp only [hq, if_true]
    cases hhref : l.href with
    | none => rfl
    | some href =>
      by_cases he : href = ""
      · simp [he]
      · simp [he, hdate, hparse]
  · simp [hq]

/-! ### Claim C4 -/

/-- C4: over any parsed index listing, `get_sorted_meeting_folders` returns
the qualifying rows sorted by parsed timestamp in descending order; the sort
is a permutation of the collected rows and is stable (for every timestamp
value, the rows carrying it appear in input order); and a row whose
timestamp string fails to parse is absent from the output while the
remaining rows are still processed (removing it from the listing does not
change the result). -/
theorem get_sorted_meeting_folders_sorted_stable (rows pre post : List IndexRow)
    (bad : IndexRow) (l : LinkInfo) (ds : String)
    (hlink : bad.link = some l) (hdate : l.dateCell = some ds)
    (hparse : parseTimestamp (pyStrip ds) = none) :
    (sortDesc (collectFolders rows)).Pairwise (fun a b => b.1 ≤ a.1) ∧
    List.Perm (sortDesc (collectFolders rows)) (collectFolders rows) ∧
    (∀ t : Nat, (sortDesc (collectFolders rows)).filter (fun p => p.1 == t) =
      (collectFolders rows).filter (fun p => p.1 == t)) ∧
    get_sorted_meeting_folders rows = (sortDesc (collectFolders rows)).map Prod.snd ∧
    get_sorted_meeting_folders (pre ++ bad :: post) =
      get_sorted_meeting_folders (pre ++ post) := by
  refine ⟨sortDesc_pairwise _, sortDesc_perm _, fun t => filter_sortDesc _ t, rfl, ?_⟩
  unfold get_sorted_meeting_folders collectFolders
  rw [List.filterMap_append, List.filterMap_append, List.filterMap_cons,
    rowEntry_none_of_unparseable bad l ds hlink hdate hparse]

/-- Witness for C4 on a concrete listing: two qualifying rows out of order,
one row with an unparseable date, one row excluded by its class attribute. -/
theorem get_sorted_meeting_folders_sorted_stable_witness :
    ((sortDesc (collectFolders
        [⟨some ⟨"TSGR_109", some [], some "h109", some "2025/03/01 10:00"⟩⟩,
         ⟨some ⟨"TSGR_108", none, some "h108", some "not a date"⟩⟩,
         ⟨some ⟨" TSGR_110 ", none, some "h110", some "2025/08/10 22:07"⟩⟩,
         ⟨some ⟨"TSGR_107", some ["up"], some "h107", some "2025/09/01 10:00"⟩⟩])).Pairwise
      (fun a b => b.1 ≤ a.1)) ∧
    List.Perm (sortDesc (collectFolders
        [⟨some ⟨"TSGR_109", some [], some "h109", some "2025/03/01 10:00"⟩⟩,
         ⟨some ⟨"TSGR_108", none, some "h108", some "not a date"⟩⟩,
         ⟨some ⟨" TSGR_110 ", none, some "h110", some "2025/08/10 22:07"⟩⟩,
         ⟨some ⟨"TSGR_107", some ["up"], some "h107", some "2025/09/01 10:00"⟩⟩]))
      (collectFolders
        [⟨some ⟨"TSGR_109", some [], some "h109", some "2025/03/01 10:00"⟩⟩,
         ⟨some ⟨"TSGR_108", none, some "h108", some "not a date"⟩⟩,
         ⟨some ⟨" TSGR_110 ", none, some "h110", some "2025/08/10 22:07"⟩⟩,
         ⟨some ⟨"TSGR_107", some ["up"], some "h107", some "2025/09/01 10:00"⟩⟩]) ∧
    (∀ t : Nat, (sortDesc (collectFolders
        [⟨some ⟨"TSGR_109", some [], some "h109", some "2025/03/01 10:00"⟩⟩,
         ⟨some ⟨"TSGR_108", none, some "h108", some "not a date"⟩⟩,
         ⟨some ⟨" TSGR_110 ", none, some "h110", some "2025/08/10 22:07"⟩⟩,
         ⟨some ⟨"TSGR_107", some ["up"], some "h107", some "2025/09/01 10:00"⟩⟩])).filter
        (fun p => p.1 == t) =
      (collectFolders
        [⟨some ⟨"TSGR_109", some [], some "h109", some "2025/03/01 10:00"⟩⟩,
         ⟨some ⟨"TSGR_108", none, some "h108", some "not a date"⟩⟩,
         ⟨some ⟨" TSGR_110 ", none, some "h110", some "2025/08/10 22:07"⟩⟩,
         ⟨some ⟨"TSGR_107", some ["up"], some "h107", some "2025/09/01 10:00"⟩⟩]).filter
        (fun p => p.1 == t)) ∧
    get_sorted_meeting_folders
        [⟨some ⟨"TSGR_109", some [], some "h109", some "2025/03/01 10:00"⟩⟩,
         ⟨some ⟨"TSGR_108", none, some "h108", some "not a date"⟩⟩,
         ⟨some ⟨" TSGR_110 ", none, some "h110", some "2025/08/10 22:07"⟩⟩,
         ⟨some ⟨"TSGR_107", some ["up"], some "h107", some "2025/09/01 10:00"⟩⟩] =
      (sortDesc (collectFolders
        [⟨some ⟨"TSGR_109", some [], some "h109", some "2025/03/01 10:00"⟩⟩,
         ⟨some ⟨"TSGR_108", none, some "h108", some "not a date"⟩⟩,
         ⟨some ⟨" TSGR_110 ", none, some "h110", some "2025/08/10 22:07"⟩⟩,
         ⟨some ⟨"TSGR_107", some ["up"], some "h107", some "2025/09/01 10:00"⟩⟩])).map
        Prod.snd ∧
    get_sorted_meeting_folders
        ([⟨some ⟨"TSGR_109", some [], some "h109", some "2025/03/01 10:00"⟩⟩] ++
          ⟨some ⟨"TSGR_108", none, some "h108", some "not a date"⟩⟩ ::
          [⟨some ⟨" TSGR_110 ", none, some "h110", some "2025/08/10 22:07"⟩⟩]) =
      get_sorted_meeting_folders
        ([⟨some ⟨"TSGR_109", some [], some "h109", some "2025/03/01 10:00"⟩⟩] ++
          [⟨some ⟨" TSGR_110 ", none, some "h110", some "2025/08/10 22:07"⟩⟩]) :=
  get_sorted_meeting_folders_sorted_stable
    [⟨some ⟨"TSGR_109", some [], some "h109", some "2025/03/01 10:00"⟩⟩,
     ⟨some ⟨"TSGR_108", none, some "h108", some "not a date"⟩⟩,
     ⟨some ⟨" TSGR_110 ", none, some "h110", some "2025/08/10 22:07"⟩⟩,
     ⟨some ⟨"TSGR_107", some ["up"], some "h107", some "2025/09/01 10:00"⟩⟩]
    [⟨some ⟨"TSGR_109", some [], some "h109", some "2025/03/01 10:00"⟩⟩]
    [⟨some ⟨" TSGR_110 ", none, some "h110", some "2025/08/10 22:07"⟩⟩]
    ⟨some ⟨"TSGR_108", none, some "h108", some "not a date"⟩⟩
    ⟨"TSGR_108", none, some "h108", some "not a date"⟩ "not a date"
    rfl rfl (by decide)

/-! ## Pipeline orchestration (src/main.py:479-563 and src/main.py:566-667)

Folder discovery, manifest download and manifest filtering are collapsed
into per-folder data: whether `find_excel_in_docs` succeeds for the folder
(`hasManifest`) and what `filter_approved_crs` returns for its manifest
(`crs`).  The per-CR call to `process_rp_archive` is an oracle `fetch`
returning the optional `(matching_clause, summary_of_change)` pair. -/

/-- One discovered meeting folder as the orchestrators see it. -/
structure FolderData where
  name : String
  hasManifest : Bool
  crs : List (String × String)
deriving DecidableEq

/-- One row appended to `all_matches`. -/
structure PipelineMatch where
  meetingFolder : String
  rpNumber : String
  r4Document : String
  matchingClause : String
  summaryOfChange : String
deriving DecidableEq

/-- The per-CR loop shared by both drivers (src/main.py:524-541 and
src/main.py:623-640): fetch each CR reference and append a match row when a
result is returned. -/
def processFolderCrs (fetch : String × String → Option (String × String))
    (fname : String) : List (String × String) → List PipelineMatch
  | [] => []
  | cr :: rest =>
    (match fetch cr with
     | some r => [⟨fname, cr.1, cr.2, r.1, r.2⟩]
     | none => []) ++ processFolderCrs fetch fname rest

/-- Model of the `__main__` driver (src/main.py:566-667): take the *first*
folder for which an Excel manifest is found, filter it, and process its CR
references (possibly none); later folders are never examined once a folder
has a manifest. -/
def mainWorkflow (fetch : String × String → Option (String × String))
    (folders : List FolderData) : List PipelineMatch :=
  match folders.find? (fun f => f.hasManifest) with
  | none => []
  | some tgt => processFolderCrs fetch tgt.name tgt.crs

/-- Model of `run_complete_workflow` (src/main.py:479-563): process *every*
folder, skipping folders without a manifest (and folders whose filtered CR
list is empty contribute nothing). -/
def run_complete_workflow (fetch : String × String → Option (String × String)) :
    List FolderData → List PipelineMatch
  | [] => []
  | f :: rest =>
    (if f.hasManifest then processFolderCrs fetch f.name f.crs else []) ++
      run_complete_workflow fetch rest

/-- Modelled from the spec (C3): the claimed single-folder-success policy —
skip any folder with no manifest *or an empty filtered CR list*, process
every reference of the first folder that yields at least one CR reference,
then stop. -/
def claimedOrchestration (fetch : String × String → Option (String × String))
    (folders : List FolderData) : List PipelineMatch :=
  match folders.find? (fun f => f.hasManifest && !f.crs.isEmpty) with
  | none => []
  | some tgt => processFolderCrs fetch tgt.name tgt.crs

/-! ### Claim C3 -/

/-- C3 counterexample.  With a newest folder that has a manifest but zero
qualifying CR rows and an older folder with one fetchable CR, the claimed
policy would skip the empty folder and emit the older folder's match, but
the `__main__` driver stops at the first folder that has a manifest and
emits nothing.  Moreover `run_complete_workflow` does not stop after the
first yielding folder: with two yielding folders it emits both matches,
where the claimed policy emits only the first. -/
theorem orchestration_claim_counterexample :
    mainWorkflow (fun _ => some ("6.4", "sum"))
        [⟨"F1", true, []⟩, ⟨"F2", true, [("RP-1", "R4-1")]⟩] = [] ∧
    claimedOrchestration (fun _ => some ("6.4", "sum"))
        [⟨"F1", true, []⟩, ⟨"F2", true, [("RP-1", "R4-1")]⟩] =
      [⟨"F2", "RP-1", "R4-1", "6.4", "sum"⟩] ∧
    mainWorkflow (fun _ => some ("6.4", "sum"))
        [⟨"F1", true, []⟩, ⟨"F2", true, [("RP-1", "R4-1")]⟩] ≠
      claimedOrchestration (fun _ => some ("6.4", "sum"))
        [⟨"F1", true, []⟩, ⟨"F2", true, [("RP-1", "R4-1")]⟩] ∧
    run_complete_workflow (fun _ => some ("6.4", "sum"))
        [⟨"F1", true, [("RP-1", "R4-1")]⟩, ⟨"F2", true, [("RP-2", "R4-2")]⟩] =
      [⟨"F1", "RP-1", "R4-1", "6.4", "sum"⟩, ⟨"F2", "RP-2", "R4-2", "6.4", "sum"⟩] ∧
    run_complete_workflow (fun _ => some ("6.4", "sum"))
        [⟨"F1", true, [("RP-1", "R4-1")]⟩, ⟨"F2", true, [("RP-2", "R4-2")]⟩] ≠
      claimedOrchestration (fun _ => some ("6.4", "sum"))
        [⟨"F1", true, [("RP-1", "R4-1")]⟩, ⟨"F2", true, [("RP-2", "R4-2")]⟩] :=
  ⟨rfl, rfl, by decide, rfl, by decide⟩

/-- C3 (amended): the `__main__` driver stops at the first folder that has a
manifest — regardless of whether its filtered CR list is empty — processes
every CR reference of that folder only, and never examines later folders;
`run_complete_workflow` examines every folder, skipping those without a
manifest, and never stops early (its output over a concatenation of folder
lists is the concatenation of the outputs). -/
theorem orchestration_amended (fetch : String × String → Option (String × String))
    (pre post folders2 : List FolderData) (f : FolderData)
    (hpre : ∀ g ∈ pre, g.hasManifest = false) (hf : f.hasManifest = true) :
    mainWorkflow fetch (pre ++ f :: post) = processFolderCrs fetch f.name f.crs ∧
    run_complete_workflow fetch ((pre ++ f :: post) ++ folders2) =
      run_complete_workflow fetch (pre ++ f :: post) ++
        run_complete_workflow fetch folders2 := by
  constructor
  · unfold mainWorkflow
    have hfind : (pre ++ f :: post).find? (fun f => f.hasManifest) = some f := by
      rw [List.find?_append]
      have hnone : pre.find? (fun f => f.hasManifest) = none := by
        rw [List.find?_eq_none]
        intro g hg
        simp [hpre g hg]
      rw [hnone]
      simp [List.find?_cons, hf]
    rw [hfind]
  · generalize pre ++ f :: post = l
    induction l with
    | nil => simp [run_complete_workflow]
    | cons g gs ih => simp [run_complete_workflow, ih]

/-- Witness for the amended C3: one manifest-less folder, then a folder with
one fetchable CR, then a further folder that `__main__` never examines. -/
theorem orchestration_amended_witness :
    mainWorkflow (fun _ => some ("6.4", "sum"))
        ([⟨"F0", false, []⟩] ++ ⟨"F1", true, [("RP-1", "R4-1")]⟩ :: [⟨"F2", true, [("RP-2", "R4-2")]⟩]) =
      processFolderCrs (fun _ => some ("6.4", "sum")) "F1" [("RP-1", "R4-1")] ∧
    run_complete_workflow (fun _ => some ("6.4", "sum"))
        (([⟨"F0", false, []⟩] ++ ⟨"F1", true, [("RP-1", "R4-1")]⟩ :: [⟨"F2", true, [("RP-2", "R4-2")]⟩]) ++
          [⟨"F3", true, [("RP-3", "R4-3")]⟩]) =
      run_complete_workflow (fun _ => some ("6.4", "sum"))
        ([⟨"F0", false, []⟩] ++ ⟨"F1", true, [("RP-1", "R4-1")]⟩ :: [⟨"F2", true, [("RP-2", "R4-2")]⟩]) ++
        run_complete_workflow (fun _ => some ("6.4", "sum")) [⟨"F3", true, [("RP-3", "R4-3")]⟩] :=
  orchestration_amended (fun _ => some ("6.4", "sum"))
    [⟨"F0", false, []⟩] [⟨"F2", true, [("RP-2", "R4-2")]⟩] [⟨"F3", true, [("RP-3", "R4-3")]⟩]
    ⟨"F1", true, [("RP-1", "R4-1")]⟩ (by decide) rfl

/-! ## Document fetcher (`process_rp_archive`, src/main.py:180-296)

Scratch storage is the list of file paths currently present in `TEMP_DIR`.
The effectful outcomes are supplied by a `FetchEnv` oracle:

* `download` — outcome of the `requests.get`/streaming write of
  src/main.py:196-202 (`timeout`/`httpError` carry whether the partial file
  was already created, which depends on where the exception fired;
  `ok size` is a completed download of `size` bytes);
* `zipOk` — whether `zipfile.ZipFile` accepts the downloaded archive
  (false models `BadZipFile`);
* `names` — `z.namelist()` of the outer archive;
* `innerOk p` / `innerNames p` — whether the nested archive extracted at
  path `p` opens, and its name list;
* `search p` — the result of `search_docx_for_clauses` on the document
  extracted at path `p` (that function catches all its exceptions and is
  modelled as total);
* `removeOk p` — whether `os.remove(p)` succeeds (failures are swallowed
  by the bare `except: pass` handlers). -/

/-- Outcome of the archive download. -/
inductive DownloadResult
  | timeout (written : Bool)
  | httpError (written : Bool)
  | ok (size : Nat)
deriving DecidableEq

/-- Oracle for the effectful steps of `process_rp_archive`. -/
structure FetchEnv where
  download : DownloadResult
  zipOk : Bool
  names : List String
  innerOk : String → Bool
  innerNames : String → List String
  search : String → Option (String × String)
  removeOk : String → Bool

/-- A Python value passed as `rp_number`: a string or something else
(`filter_approved_crs` always passes a string, but the function guards). -/
inductive PyVal
  | str (s : String)
  | nonStr
deriving DecidableEq

/-- Model of `os.path.join(TEMP_DIR, name)` with `TEMP_DIR = "temp_files"`. -/
def scratchPath (name : String) : String := "temp_files/" ++ name

/-- Creating a file: scratch state gains the path (idempotent). -/
def addFile (s : List String) (p : String) : List String :=
  if p ∈ s then s else p :: s

/-- Model of `os.remove p` under the oracle: on success the path disappears, on a
swallowed failure the state is unchanged. -/
def removeFile (env : FetchEnv) (s : List String) (p : String) : List String :=
  if env.removeOk p then s.filter (fun q => q != p) else s

/-- The cleanup idiom `if os.path.exists(p): try: os.remove(p) except: pass`
used at src/main.py:252-256 and src/main.py:285-294. -/
def removeIfExists (env : FetchEnv) (s : List String) (p : String) : List String :=
  if p ∈ s then removeFile env s p else s

/-- Entry test of src/main.py:219 and src/main.py:242:
`r4_doc_name.lower() in name.lower() and name.lower().endswith('.docx')`. -/
def docxMatch (r4 : String) (name : String) : Bool :=
  listIsInfixOf (pyLower r4).data (pyLower name).data && strEndsWith (pyLower name) ".docx"

/-- First matching entry of a name list (the `for name in z.namelist()`
loops with `break` of src/main.py:216-221 and src/main.py:240-247). -/
def findDocxEntry (r4 : String) (names : List String) : Option String :=
  names.find? (docxMatch r4)

/-- The nested-archive candidates of src/main.py:229:
`[name for name in z.namelist() if name.lower().endswith('.zip')]`. -/
def zipEntryFilter (names : List String) : List String :=
  names.filter (fun n => strEndsWith (pyLower n) ".zip")

/-- Result of processing a prefix of the nested-archive candidates. -/
structure InnerOut where
  res : Option (String × String)
  dpath : Option String
  files : List String
  found : Bool
deriving DecidableEq

/-- One iteration of the nested-archive loop (src/main.py:233-259): extract
the candidate, try to open it and search it for a matching document
(extracting the document on a hit), then delete the candidate's scratch
file regardless of the outcome. -/
def stepInner (env : FetchEnv) (r4 : String) (zf : String) (s : List String) : InnerOut :=
  let ip := scratchPath zf
  let s1 := addFile s ip
  let out :=
    if env.innerOk ip then
      match findDocxEntry r4 (env.innerNames ip) with
      | some name =>
        let dp := scratchPath name
        InnerOut.mk (env.search dp) (some dp) (addFile s1 dp) true
      | none => InnerOut.mk none none s1 false
    else InnerOut.mk none none s1 false
  { out with files := removeIfExists env out.files ip }

/-- The nested-archive loop of src/main.py:233-259: stop at the first
candidate in which a matching document was found. -/
def processInnerZips (env : FetchEnv) (r4 : String) :
    List String → List String → InnerOut
  | [], s => InnerOut.mk none none s false
  | zf :: rest, s =>
    let out := stepInner env r4 zf s
    if out.found then out else processInnerZips env r4 rest out.files

/-- The `finally` block of src/main.py:283-294: best-effort removal of the
extracted document file (if any) and of the downloaded archive file. -/
def finallyCleanup (env : FetchEnv) (s : List String) (dp : Option String)
    (zp : String) : List String :=
  let s1 :=
    match dp with
    | some d => removeIfExists env s d
    | none => s
  removeIfExists env s1 zp

/-- Model of `process_rp_archive` (src/main.py:180-296).  Returns the
optional `(matching_clause, summary_of_change)` result together with the
final scratch state.  Every exception of the original is caught by one of
its `except` arms, so the model is total; the `finally` cleanup runs on
every path that entered the `try` block. -/
def process_rp_archive (env : FetchEnv) (rp : PyVal) (r4 : String)
    (s0 : List String) : Option (String × String) × List String :=
  match rp with
  | PyVal.nonStr => (none, s0)
  | PyVal.str rpn =>
    if rpn = "" then (none, s0)
    else
      let zp := scratchPath (rpn ++ ".zip")
      match env.download with
      | DownloadResult.timeout written =>
        (none, finallyCleanup env (if written then addFile s0 zp else s0) none zp)
      | DownloadResult.httpError written =>
        (none, finallyCleanup env (if written then addFile s0 zp else s0) none zp)
      | DownloadResult.ok size =>
        let s1 := addFile s0 zp
        if size = 0 then (none, finallyCleanup env s1 none zp)
        else if !env.zipOk then (none, finallyCleanup env s1 none zp)
        else
          match findDocxEntry r4 env.names with
          | some name =>
            let dp := scratchPath name
            (env.search dp, finallyCleanup env (addFile s1 dp) (some dp) zp)
          | none =>
            let out := processInnerZips env r4 (zipEntryFilter env.names) s1
            (out.res, finallyCleanup env out.files out.dpath zp)

/-! ### Helper lemmas for the document fetcher -/

theorem mem_addFile (s : List String) (p q : String) :
    q ∈ addFile s p ↔ q = p ∨ q ∈ s := by
  unfold addFile
  by_cases h : p ∈ s
  · simp only [h, if_true]
    constructor
    · tauto
    · rintro (rfl | hq) <;> assumption
  · simp [h]

theorem mem_removeFile (env : FetchEnv) (s : List String) (p q : String)
    (hrm : ∀ x, env.removeOk x = true) :
    q ∈ removeFile env s p ↔ q ∈ s ∧ q ≠ p := by
  unfold removeFile
  simp [hrm p, List.mem_filter]

theorem mem_removeIfExists (env : FetchEnv) (s : List String) (p q : String)
    (hrm : ∀ x, env.removeOk x = true) :
    q ∈ removeIfExists env s p ↔ q ∈ s ∧ q ≠ p := by
  unfold removeIfExists
  by_cases h : p ∈ s
  · rw [if_pos h, mem_removeFile env _ _ _ hrm]
  · rw [if_neg h]
    constructor
    · intro hq
      exact ⟨hq, fun e => h (e ▸ hq)⟩
    · exact fun hq => hq.1

theorem mem_finallyCleanup (env : FetchEnv) (s : List String) (dp : Option String)
    (zp q : String) (hrm : ∀ x, env.removeOk x = true)
    (hq : q ∈ finallyCleanup env s dp zp) :
    q ∈ s ∧ q ≠ zp ∧ ∀ d, dp = some d → q ≠ d := by
  unfold finallyCleanup at hq
  rw [mem_removeIfExists env _ _ _ hrm] at hq
  obtain ⟨hq1, hq2⟩ := hq
  cases dp with
  | none => exact ⟨hq1, hq2, by simp⟩
  | some d =>
    rw [mem_removeIfExists env _ _ _ hrm] at hq1
    refine ⟨hq1.1, hq2, ?_⟩
    intro d' hd'
    cases hd'
    exact hq1.2

theorem notMem_finallyCleanup (env : FetchEnv) (s : List String) (dp : Option String)
    (zp : String) (hrm : ∀ x, env.removeOk x = true) :
    zp ∉ finallyCleanup env s dp zp := by
  intro h
  exact (mem_finallyCleanup env s dp zp zp hrm h).2.1 rfl

theorem mem_stepInner (env : FetchEnv) (r4 zf : String) (s : List String)
    (q : String) (hrm : ∀ x, env.removeOk x = true)
    (hq : q ∈ (stepInner env r4 zf s).files) :
    q ∈ s ∨ (stepInner env r4 zf s).dpath = some q := by
  unfold stepInner at *
  set ip := scratchPath zf with hip
  by_cases hok : env.innerOk ip
  · cases hfind : findDocxEntry r4 (env.innerNames ip) with
    | none =>
      simp only [hok, hfind, if_true] at hq ⊢
      rw [mem_removeIfExists env _ _ _ hrm, mem_addFile] at hq
      rcases hq.1 with rfl | h
      · exact absurd rfl hq.2
      · exact Or.inl h
    | some name =>
      simp only [hok, hfind, if_true] at hq ⊢
      rw [mem_removeIfExists env _ _ _ hrm, mem_addFile, mem_addFile] at hq
      rcases hq.1 with rfl | rfl | h
      · exact Or.inr rfl
      · exact absurd rfl hq.2
      · exact Or.inl h
  · simp only [hok, if_false, Bool.false_eq_true] at hq ⊢
    rw [mem_removeIfExists env _ _ _ hrm, mem_addFile] at hq
    rcases hq.1 with rfl | h
    · exact absurd rfl hq.2
    · exact Or.inl h

theorem mem_processInnerZips (env : FetchEnv) (r4 : String) (zips : List String)
    (s : List String) (q : String) (hrm : ∀ x, env.removeOk x = true)
    (hq : q ∈ (processInnerZips env r4 zips s).files) :
    q ∈ s ∨ (processInnerZips env r4 zips s).dpath = some q := by
  induction zips generalizing s with
  | nil => exact Or.inl hq
  | cons zf rest ih =>
    unfold processInnerZips at hq ⊢
    by_cases hfound : (stepInner env r4 zf s).found
    · simp only [hfound, if_true] at hq ⊢
      exact mem_stepInner env r4 zf s q hrm hq
    · simp only [hfound, if_false, Bool.false_eq_true] at hq ⊢
      rcases ih (stepInner env r4 zf s).files hq with h | h
      · rcases mem_stepInner env r4 zf s q hrm h with h2 | h2
        · exact Or.inl h2
        · exfalso
          unfold stepInner at h2 hfound
          by_cases hok : env.innerOk (scratchPath zf)
          · cases hfind : findDocxEntry r4 (env.innerNames (scratchPath zf)) with
            | none => simp [hok, hfind] at h2
            | some name => simp [hok, hfind] at hfound
          · simp [hok] at h2
      · exact Or.inr h

theorem find?_eq_head_filter (p : String → Bool) (l : List String) :
    l.find? p = (l.filter p).head? := by
  induction l with
  | nil => rfl
  | cons x xs ih =>
    rw [List.find?_cons, List.filter_cons]
    cases h : p x with
    | true => rfl
    | false => exact ih

/-! ### Claim C1 -/

/-- C1: for every call of `process_rp_archive` with a valid archive id —
whatever the oracle decides about the download, archive integrity, entry
lists, nested archives and clause search, i.e. on every branch including all
exception paths — when removals succeed, the downloaded top-level archive
file `temp_files/<rp>.zip` is gone from scratch storage on return, and no
file that was not already present before the call remains (in particular
every extracted document and nested-archive file is gone).  Removal failures
themselves are swallowed by construction: the model is a total function for
every `removeOk` oracle, mirroring the bare `except: pass` handlers. -/
theorem process_rp_archive_cleanup (env : FetchEnv) (rpn r4 : String)
    (s0 : List String) (hrm : ∀ p, env.removeOk p = true) (hrp : rpn ≠ "") :
    scratchPath (rpn ++ ".zip") ∉ (process_rp_archive env (PyVal.str rpn) r4 s0).2 ∧
    ∀ q ∈ (process_rp_archive env (PyVal.str rpn) r4 s0).2, q ∈ s0 := by
  set zp := scratchPath (rpn ++ ".zip") with hzp
  have hmem1 : ∀ (w : Bool) (q : String), q ∈ (if w then addFile s0 zp else s0) →
      q ≠ zp → q ∈ s0 := by
    intro w q hq hne
    cases w with
    | false => simpa using hq
    | true =>
      simp only [if_true] at hq
      rcases (mem_addFile _ _ _).mp hq with rfl | h
      · exact absurd rfl hne
      · exact h
  have hmem2 : ∀ q : String, q ∈ addFile s0 zp → q ≠ zp → q ∈ s0 := by
    intro q hq hne
    rcases (mem_addFile _ _ _).mp hq with rfl | h
    · exact absurd rfl hne
    · exact h
  cases hdl : env.download with
  | timeout w =>
    simp only [process_rp_archive, if_neg hrp, hdl]
    refine ⟨notMem_finallyCleanup env _ none _ hrm, ?_⟩
    intro q hq
    obtain ⟨h1, h2, _⟩ := mem_finallyCleanup env _ none _ q hrm hq
    exact hmem1 w q h1 h2
  | httpError w =>
    simp only [process_rp_archive, if_neg hrp, hdl]
    refine ⟨notMem_finallyCleanup env _ none _ hrm, ?_⟩
    intro q hq
    obtain ⟨h1, h2, _⟩ := mem_finallyCleanup env _ none _ q hrm hq
    exact hmem1 w q h1 h2
  | ok size =>
    simp only [process_rp_archive, if_neg hrp, hdl]
    by_cases hsz : size = 0
    · rw [if_pos hsz]
      refine ⟨notMem_finallyCleanup env _ none _ hrm, ?_⟩
      intro q hq
      obtain ⟨h1, h2, _⟩ := mem_finallyCleanup env _ none _ q hrm hq
      exact hmem2 q h1 h2
    · rw [if_neg hsz]
      by_cases hz : env.zipOk
      · simp only [hz, Bool.not_true, Bool.false_eq_true, if_false]
        cases hfind : findDocxEntry r4 env.names with
        | some name =>
          simp only [hfind]
          refine ⟨notMem_finallyCleanup env _ _ _ hrm, ?_⟩
          intro q hq
          obtain ⟨h1, h2, h3⟩ := mem_finallyCleanup env _ _ _ q hrm hq
          have hqd : q ≠ scratchPath name := h3 _ rfl
          rcases (mem_addFile _ _ _).mp h1 with rfl | h1'
          · exact absurd rfl hqd
          · exact hmem2 q h1' h2
        | none =>
          simp only [hfind]
          refine ⟨notMem_finallyCleanup env _ _ _ hrm, ?_⟩
          intro q hq
          obtain ⟨h1, h2, h3⟩ := mem_finallyCleanup env _ _ _ q hrm hq
          rcases mem_processInnerZips env r4 _ _ q hrm h1 with h4 | h4
          · exact hmem2 q h4 h2
          · exact absurd rfl (h3 q h4)
      · have hz2 : env.zipOk = false := by simpa using hz
        simp only [hz2, Bool.not_false, if_true]
        refine ⟨notMem_finallyCleanup env _ none _ hrm, ?_⟩
        intro q hq
        obtain ⟨h1, h2, _⟩ := mem_finallyCleanup env _ none _ q hrm hq
        exact hmem2 q h1 h2

/-- Witness for C1: a successful direct-match run over empty scratch
storage leaves scratch storage empty of the archive and of any new file. -/
theorem process_rp_archive_cleanup_witness :
    scratchPath ("RP-1" ++ ".zip") ∉
      (process_rp_archive
        ⟨DownloadResult.ok 3, true, ["ABC_r4-1_x.DOCX"], fun _ => false, fun _ => [],
          fun _ => some ("6.4", "sum"), fun _ => true⟩
        (PyVal.str "RP-1") "R4-1" []).2 ∧
    ∀ q ∈ (process_rp_archive
        ⟨DownloadResult.ok 3, true, ["ABC_r4-1_x.DOCX"], fun _ => false, fun _ => [],
          fun _ => some ("6.4", "sum"), fun _ => true⟩
        (PyVal.str "RP-1") "R4-1" []).2, q ∈ ([] : List String) :=
  process_rp_archive_cleanup
    ⟨DownloadResult.ok 3, true, ["ABC_r4-1_x.DOCX"], fun _ => false, fun _ => [],
      fun _ => some ("6.4", "sum"), fun _ => true⟩
    "RP-1" "R4-1" [] (fun _ => rfl) (by decide)

/-! ### Claim C5 -/

/-- C5: `process_rp_archive` returns `none` (and, the model being a total
function with every exception arm translated, never raises) when the archive
id is not a string or is empty, when the download times out or fails with an
HTTP error, when the downloaded file has zero bytes (rejected before any of
the archive-parsing oracle fields are consulted), or when the archive fails
the zip integrity check on open. -/
theorem process_rp_archive_soft_failures (env : FetchEnv) (rp : PyVal)
    (r4 : String) (s0 : List String) (w : Bool)
    (h : rp = PyVal.nonStr ∨ rp = PyVal.str "" ∨
      env.download = DownloadResult.timeout w ∨
      env.download = DownloadResult.httpError w ∨
      env.download = DownloadResult.ok 0 ∨ env.zipOk = false) :
    (process_rp_archive env rp r4 s0).1 = none := by
  have hbranch : ∀ rpn : String, rpn ≠ "" →
      (env.download = DownloadResult.timeout w ∨
        env.download = DownloadResult.httpError w ∨
        env.download = DownloadResult.ok 0 ∨ env.zipOk = false) →
      (process_rp_archive env (PyVal.str rpn) r4 s0).1 = none := by
    intro rpn hrp hcase
    rcases hcase with hdl | hdl | hdl | hz
    · simp [process_rp_archive, if_neg hrp, hdl]
    · simp [process_rp_archive, if_neg hrp, hdl]
    · simp [process_rp_archive, if_neg hrp, hdl]
    · cases hdl : env.download with
      | timeout w2 => simp [process_rp_archive, if_neg hrp, hdl]
      | httpError w2 => simp [process_rp_archive, if_neg hrp, hdl]
      | ok size =>
        by_cases hsz : size = 0
        · simp [process_rp_archive, if_neg hrp, hdl, hsz]
        · simp [process_rp_archive, if_neg hrp, hdl, if_neg hsz, hz]
  rcases h with rfl | rfl | hcase | hcase | hcase | hcase
  · rfl
  · simp [process_rp_archive]
  · cases rp with
    | nonStr => rfl
    | str rpn =>
      by_cases hrp : rpn = ""
      · simp [process_rp_archive, hrp]
      · exact hbranch rpn hrp (Or.inl hcase)
  · cases rp with
    | nonStr => rfl
    | str rpn =>
      by_cases hrp : rpn = ""
      · simp [process_rp_archive, hrp]
      · exact hbranch rpn hrp (Or.inr (Or.inl hcase))
  · cases rp with
    | nonStr => rfl
    | str rpn =>
      by_cases hrp : rpn = ""
      · simp [process_rp_archive, hrp]
      · exact hbranch rpn hrp (Or.inr (Or.inr (Or.inl hcase)))
  · cases rp with
    | nonStr => rfl
    | str rpn =>
      by_cases hrp : rpn = ""
      · simp [process_rp_archive, hrp]
      · exact hbranch rpn hrp (Or.inr (Or.inr (Or.inr hcase)))

/-- Witness for C5: a timed-out download yields `none`. -/
theorem process_rp_archive_soft_failures_witness :
    (process_rp_archive
      ⟨DownloadResult.timeout false, true, [], fun _ => false, fun _ => [],
        fun _ => none, fun _ => true⟩
      (PyVal.str "RP-1") "R4-1" []).1 = none :=
  process_rp_archive_soft_failures
    ⟨DownloadResult.timeout false, true, [], fun _ => false, fun _ => [],
      fun _ => none, fun _ => true⟩
    (PyVal.str "RP-1") "R4-1" [] false (Or.inr (Or.inr (Or.inl rfl)))

/-! ### Claim C9 -/

/-- C9: `process_rp_archive` selects the *first* archive entry whose name
contains the document id case-insensitively and ends with `.docx` (entry
selection is `find?`, i.e. the head of the filtered entry list), and on a
direct match the call's result is exactly the clause search on that entry's
extraction path; when a nested-archive candidate contains a matching
document, processing the candidate list stops with that candidate — the
remaining candidates are never tried; and every processed nested-archive
scratch file is deleted immediately after its processing step, whether or
not a document was found in it. -/
theorem process_rp_archive_entry_selection (env : FetchEnv) (rpn r4 n z1 : String)
    (s0 : List String) (sz : Nat)
    (hrm : ∀ p, env.removeOk p = true)
    (hrp : rpn ≠ "") (hdl : env.download = DownloadResult.ok sz) (hsz : sz ≠ 0)
    (hzip : env.zipOk = true)
    (hfind : findDocxEntry r4 env.names = some n)
    (hinner : env.innerOk (scratchPath z1) = true)
    (hinnerfind : (findDocxEntry r4 (env.innerNames (scratchPath z1))).isSome = true) :
    (docxMatch r4 n = true ∧
      findDocxEntry r4 env.names = (env.names.filter (docxMatch r4)).head?) ∧
    (process_rp_archive env (PyVal.str rpn) r4 s0).1 = env.search (scratchPath n) ∧
    (∀ zips s2, processInnerZips env r4 (z1 :: zips) s2 = processInnerZips env r4 [z1] s2) ∧
    (∀ z s2, scratchPath z ∉ (stepInner env r4 z s2).files) := by
  obtain ⟨nm, hnm⟩ := Option.isSome_iff_exists.mp hinnerfind
  refine ⟨⟨List.find?_some hfind, find?_eq_head_filter _ _⟩, ?_, ?_, ?_⟩
  · simp only [process_rp_archive, if_neg hrp, hdl, if_neg hsz, hzip, Bool.not_true,
      Bool.false_eq_true, if_false, hfind]
  · intro zips s2
    have hstep : ∀ s3 : List String, (stepInner env r4 z1 s3).found = true := by
      intro s3
      simp [stepInner, hinner, hnm]
    unfold processInnerZips
    rw [if_pos (hstep s2), if_pos (hstep s2)]
  · intro z s2
    intro hq
    have : scratchPath z ∈ removeIfExists env
        (if env.innerOk (scratchPath z) then
          match findDocxEntry r4 (env.innerNames (scratchPath z)) with
          | some name =>
            InnerOut.mk (env.search (scratchPath name)) (some (scratchPath name))
              (addFile (addFile s2 (scratchPath z)) (scratchPath name)) true
          | none => InnerOut.mk none none (addFile s2 (scratchPath z)) false
          else InnerOut.mk none none (addFile s2 (scratchPath z)) false).files
        (scratchPath z) := hq
    exact ((mem_removeIfExists env _ _ _ hrm).mp this).2 rfl

/-- Witness for C9: a concrete archive with one matching direct entry, and
one nested candidate whose inner archive contains a matching document. -/
theorem process_rp_archive_entry_selection_witness :
    (docxMatch "R4-9" "paper_R4-9_v1.docx" = true ∧
      findDocxEntry "R4-9" ["paper_R4-9_v1.docx", "other.zip"] =
        (["paper_R4-9_v1.docx", "other.zip"].filter (docxMatch "R4-9")).head?) ∧
    (process_rp_archive
      ⟨DownloadResult.ok 3, true, ["paper_R4-9_v1.docx", "other.zip"], fun _ => true,
        fun _ => ["inner_R4-9.docx"], fun _ => some ("6.4", "sum"), fun _ => true⟩
      (PyVal.str "RP-9") "R4-9" []).1 =
      (fun _ => some (("6.4" : String), ("sum" : String))) (scratchPath "paper_R4-9_v1.docx") ∧
    (∀ zips s2, processInnerZips
      ⟨DownloadResult.ok 3, true, ["paper_R4-9_v1.docx", "other.zip"], fun _ => true,
        fun _ => ["inner_R4-9.docx"], fun _ => some ("6.4", "sum"), fun _ => true⟩
      "R4-9" ("other.zip" :: zips) s2 = processInnerZips
      ⟨DownloadResult.ok 3, true, ["paper_R4-9_v1.docx", "other.zip"], fun _ => true,
        fun _ => ["inner_R4-9.docx"], fun _ => some ("6.4", "sum"), fun _ => true⟩
      "R4-9" ["other.zip"] s2) ∧
    (∀ z s2, scratchPath z ∉ (stepInner
      ⟨DownloadResult.ok 3, true, ["paper_R4-9_v1.docx", "other.zip"], fun _ => true,
        fun _ => ["inner_R4-9.docx"], fun _ => some ("6.4", "sum"), fun _ => true⟩
      "R4-9" z s2).files) :=
  process_rp_archive_entry_selection
    ⟨DownloadResult.ok 3, true, ["paper_R4-9_v1.docx", "other.zip"], fun _ => true,
      fun _ => ["inner_R4-9.docx"], fun _ => some ("6.4", "sum"), fun _ => true⟩
    "RP-9" "R4-9" "paper_R4-9_v1.docx" "other.zip" [] 3
    (fun _ => rfl) (by decide) rfl (by decide) rfl (by decide) rfl (by decide)

/-! ## Clause matcher (`search_docx_for_clauses`, src/main.py:298-438)

The python-docx traversal (src/main.py:305-314) is external I/O; the
embedding starts from `all_paragraphs`, the ordered list of paragraph and
table-cell text blocks.  The regex `[\d\w\.]+\.[\d\w]+` of src/main.py:344
is modelled by an explicit scanner with Python `re` semantics: at each
start position the greedy `[\w.]+` backtracks minimally, so a successful
match at a position splits its run of word/dot characters at the *last* dot
that is followed by a word character, takes the maximal word-character run
after that dot, and scanning resumes after the match (`findall` returns
non-overlapping matches left to right). -/

/-- Python `\w` (ASCII): letters, digits, underscore. -/
def wordChar (c : Char) : Bool := c.isAlphanum || c = '_'

/-- The character class `[\d\w\.]` of the regex (ASCII). -/
def dotWord (c : Char) : Bool := wordChar c || c = '.'

/-- Split a run of `dotWord` characters at the last dot that is followed by
a word character and is preceded by at least one character, returning the
part before that dot and the maximal word run after it. -/
def splitLastDot (acc : List Char) : List Char → Option (List Char × List Char)
  | [] => none
  | d :: rest =>
    match splitLastDot (d :: acc) rest with
    | some r => some r
    | none =>
      if d = '.' && !acc.isEmpty then
        match rest with
        | c :: _ => if wordChar c then some (acc.reverse, rest.takeWhile wordChar) else none
        | [] => none
      else none

/-- Attempt a regex match at the current position: the match must lie inside
the maximal `dotWord` run starting here. -/
def tryMatch (cs : List Char) : Option (List Char × List Char) :=
  let run := cs.takeWhile dotWord
  match splitLastDot [] run with
  | some (a, b) =>
    let m := a ++ '.' :: b
    some (m, cs.drop m.length)
  | none => none

/-- Fuelled `re.findall` scan (the fuel is the remaining length; every step
consumes at least one character). -/
def findAllGo : Nat → List Char → List (List Char)
  | 0, _ => []
  | fuel + 1, cs =>
    match cs with
    | [] => []
    | c :: rest =>
      match tryMatch (c :: rest) with
      | some (m, rem) => m :: findAllGo fuel rem
      | none => findAllGo fuel rest

/-- Model of `re.findall(r'[\d\w\.]+\.[\d\w]+', s)` (src/main.py:344). -/
def findAll (cs : List Char) : List (List Char) := findAllGo cs.length cs

/-- The strip set of `clause.strip('., ')` (src/main.py:349). -/
def candStripChar (c : Char) : Bool := c = '.' || c = ',' || c = ' '

/-- The search window of src/main.py:334-340: the block containing the
phrase concatenated with up to the next five blocks, separated by spaces. -/
def window5 (blocks : List String) (i : Nat) : String :=
  ((blocks.drop (i + 1)).take 5).foldl (fun a b => a ++ " " ++ b) (blocks.getD i "")

/-- The cleaned clause candidates of one `clauses affected` occurrence
(src/main.py:344-349). -/
def clauseCandidates (blocks : List String) (i : Nat) : List String :=
  (findAll (window5 blocks i).data).map (fun m => String.mk (stripBoth candStripChar m))

/-- The scan loop of src/main.py:327-353: visit every block; at each block
containing `clauses affected` (case-insensitively), remember its index and
accumulate the candidates that are in the clause set and not yet collected,
tagged with the block index. -/
def collectGo (db blocks : List String) :
    Nat → Nat → List (String × Nat) → Option Nat → List (String × Nat) × Option Nat
  | 0, _, acc, idx => (acc, idx)
  | fuel + 1, i, acc, idx =>
    match blocks.get? i with
    | none => (acc, idx)
    | some text =>
      if containsCI text "clauses affected" then
        collectGo db blocks fuel (i + 1)
          ((clauseCandidates blocks i).foldl
            (fun a c =>
              if db.contains c && !((a.map Prod.fst).contains c) then a ++ [(c, i)] else a)
            acc)
          (some i)
      else collectGo db blocks fuel (i + 1) acc idx

/-- The repeated-header skip list of src/main.py:377. -/
def repeatedHeaderList : List String :=
  ["summary of change:", "summary of the change:", "summary of change", "summary of the change"]

/-- Check of src/main.py:377: the block is just the summary header again. -/
def isRepeatedHeader (t : String) : Bool := repeatedHeaderList.contains (pyLower t)

/-- The benign phrases excluded from the all-caps header rule (src/main.py:387). -/
def benignUpperList : List String :=
  ["summary of change", "summary of the change", "description of change",
   "details of change", "explanation of change"]

/-- The `is_section_header` test of src/main.py:387: all upper case, shorter than 100
characters, and not a benign phrase. -/
def isSectionHeaderUpper (t : String) : Bool :=
  pyIsUpper t && t.data.length < 100 && !(benignUpperList.contains (pyLower t))

/-- The benign phrases excluded from the colon rule (src/main.py:392). -/
def benignColonList : List String :=
  ["summary of change", "summary of the change", "description of change",
   "table of changes", "list of changes", "overview", "section"]

/-- The keyword substrings excluded from the colon rule (src/main.py:393). -/
def colonKeywordList : List String :=
  ["title", "heading", "section", "chapter", "clause", "item", "specification",
   "requirement"]

/-- The `ends_with_colon` test of src/main.py:391-393: ends with a colon, shorter
than 50 characters, not a benign phrase, and containing none of the
keyword substrings. -/
def endsWithColonHeader (t : String) : Bool :=
  strEndsWith t ":" && t.data.length < 50 && !(benignColonList.contains (pyLower t)) &&
  !(colonKeywordList.any (fun k => strContains (pyLower t) k))

/-- The stop test of the primary summary strategy (src/main.py:395). -/
def primaryBreak (t : String) : Bool := isSectionHeaderUpper t || endsWithColonHeader t

/-- The stop test of the fallback summary strategy (src/main.py:419):
`(para_text.isupper() and len(para_text) < 100) or para_text.endswith(':')`. -/
def fallbackBreak (t : String) : Bool :=
  (pyIsUpper t && t.data.length < 100) || strEndsWith t ":"

/-- Does a block contain one of the two summary phrases (src/main.py:364)? -/
def hasSummaryPhrase (t : String) : Bool :=
  containsCI t "summary of change" || containsCI t "summary of the change"

/-- Index of the first block containing a summary phrase (the scan of
src/main.py:362-364 breaks at its first hit). -/
def findSummaryIdx : List String → Option Nat
  | [] => none
  | b :: bs =>
    if hasSummaryPhrase b then some 0 else (findSummaryIdx bs).map (· + 1)

/-- The accumulation loop of the primary summary strategy
(src/main.py:372-405) over the at most ten blocks after the header: skip a
repeated header, skip blanks, stop at a section header, and append a
stripped block unless it repeats the last accumulated line. -/
def sumGo : List String → List String → List String
  | [], lines => lines
  | raw :: rest, lines =>
    let t := pyStrip raw
    if isRepeatedHeader t then sumGo rest lines
    else if t = "" then sumGo rest lines
    else if primaryBreak t then lines
    else if lines.getLast? = some t then sumGo rest lines
    else sumGo rest (lines ++ [t])

/-- The primary summary result: joined with newlines and stripped
(src/main.py:407). -/
def processSummaryLines (ls : List String) : String :=
  pyStrip (pyJoin "\n" (sumGo ls []))

/-- The fallback accumulation loop (src/main.py:412-426) over the at most
fourteen blocks after the `clauses affected` index: skip blanks and blocks
mentioning `clauses affected`, stop at the fallback header test, and
concatenate the rest with newlines. -/
def fbGo : List String → String → String
  | [], acc => acc
  | raw :: rest, acc =>
    let t := pyStrip raw
    if t != "" && !(containsCI t "clauses affected") then
      if !(fallbackBreak t) then
        fbGo rest (if 0 < acc.data.length then acc ++ "\n" ++ t else acc ++ t)
      else acc
    else fbGo rest acc

/-- The fallback summary result. -/
def processFallback (ls : List String) : String := fbGo ls ""

/-- Model of `search_docx_for_clauses` (src/main.py:298-438) over the text
blocks: collect the matching clauses; if none, return `none`; otherwise
extract the summary with the primary strategy at the first summary header,
or with the fallback after the last `clauses affected` block if no summary
header exists anywhere, and return the first matching clause with it. -/
def search_docx_for_clauses (db : List String) (blocks : List String) :
    Option (String × String) :=
  match collectGo db blocks blocks.length 0 [] none with
  | ([], _) => none
  | ((c, _) :: _, caIdx) =>
    let summary :=
      match findSummaryIdx blocks with
      | some i => processSummaryLines ((blocks.drop (i + 1)).take 10)
      | none =>
        match caIdx with
        | some k => processFallback ((blocks.drop (k + 1)).take 14)
        | none => ""
    some (c, summary)

/-! ### Helper lemmas for the clause matcher -/

theorem head?_dropWhile (p : Char → Bool) (l : List Char) (c : Char)
    (h : (l.dropWhile p).head? = some c) : p c = false := by
  induction l with
  | nil => simp at h
  | cons x xs ih =>
    rw [List.dropWhile_cons] at h
    by_cases hx : p x
    · rw [if_pos hx] at h
      exact ih h
    · rw [if_neg hx] at h
      cases h
      simpa using hx

theorem getLast?_dropWhile (p : Char → Bool) (l : List Char)
    (h : l.dropWhile p ≠ []) : (l.dropWhile p).getLast? = l.getLast? := by
  obtain ⟨t, ht⟩ := (List.dropWhile_suffix p (l := l))
  conv_rhs => rw [← ht]
  rw [List.getLast?_append]
  cases hx : (l.dropWhile p).getLast? with
  | none => exact absurd (List.getLast?_eq_none_iff.mp hx) h
  | some y => simp [Option.or]

theorem stripBoth_head (p : Char → Bool) (l : List Char) (c : Char)
    (h : (stripBoth p l).head? = some c) : p c = false := by
  unfold stripBoth at h
  rw [List.head?_reverse] at h
  have hne : (l.dropWhile p).reverse.dropWhile p ≠ [] := by
    intro he
    rw [he] at h
    simp at h
  rw [getLast?_dropWhile p _ hne, List.getLast?_reverse] at h
  exact head?_dropWhile p l c h

theorem stripBoth_getLast (p : Char → Bool) (l : List Char) (c : Char)
    (h : (stripBoth p l).getLast? = some c) : p c = false := by
  unfold stripBoth at h
  rw [List.getLast?_reverse] at h
  exact head?_dropWhile p _ c h

theorem dropWhile_eq_self (p : Char → Bool) (l : List Char)
    (h : ∀ c, l.head? = some c → p c = false) : l.dropWhile p = l := by
  cases l with
  | nil => rfl
  | cons x xs =>
    rw [List.dropWhile_cons, if_neg]
    rw [h x rfl]
    simp

theorem stripBoth_eq_self (p : Char → Bool) (l : List Char)
    (hh : ∀ c, l.head? = some c → p c = false)
    (hl : ∀ c, l.getLast? = some c → p c = false) : stripBoth p l = l := by
  unfold stripBoth
  rw [dropWhile_eq_self p l hh]
  rw [dropWhile_eq_self p l.reverse (by
    intro c hc
    rw [List.head?_reverse] at hc
    exact hl c hc)]
  exact List.reverse_reverse l

theorem pyJoin_data_ne_nil (ls : List String) (hne : ls ≠ [])
    (h : ∀ x ∈ ls, x.data ≠ []) : (pyJoin "\n" ls).data ≠ [] := by
  cases ls with
  | nil => exact absurd rfl hne
  | cons x ys =>
    cases ys with
    | nil => exact h x (by simp)
    | cons y rest =>
      show (x ++ "\n" ++ pyJoin "\n" (y :: rest)).data ≠ []
      rw [String.data_append, String.data_append]
      intro habs
      rcases List.append_eq_nil.mp habs with ⟨h1, h2⟩
      rcases List.append_eq_nil.mp h1 with ⟨_, h3⟩
      simp at h3

theorem pyJoin_head (ls : List String) (c : Char)
    (h : ∀ x ∈ ls, x.data ≠ [])
    (hc : (pyJoin "\n" ls).data.head? = some c) :
    ∃ x ∈ ls, x.data.head? = some c := by
  cases ls with
  | nil => simp [pyJoin] at hc
  | cons x ys =>
    cases ys with
    | nil => exact ⟨x, by simp, hc⟩
    | cons y rest =>
      refine ⟨x, by simp, ?_⟩
      have hx := h x (by simp)
      replace hc : (x ++ "\n" ++ pyJoin "\n" (y :: rest)).data.head? = some c := hc
      rw [String.data_append, String.data_append] at hc
      cases hda : x.data with
      | nil => exact absurd hda hx
      | cons d ds =>
        rw [hda] at hc
        simpa using hc

theorem pyJoin_getLast (ls : List String) (c : Char)
    (h : ∀ x ∈ ls, x.data ≠ [])
    (hc : (pyJoin "\n" ls).data.getLast? = some c) :
    ∃ x ∈ ls, x.data.getLast? = some c := by
  induction ls with
  | nil => simp [pyJoin] at hc
  | cons x ys ih =>
    cases ys with
    | nil => exact ⟨x, by simp, hc⟩
    | cons y rest =>
      have hy : ∀ z ∈ y :: rest, z.data ≠ [] := by
        intro z hz
        exact h z (List.mem_cons_of_mem _ hz)
      replace hc : (x ++ "\n" ++ pyJoin "\n" (y :: rest)).data.getLast? = some c := hc
      rw [String.data_append, String.data_append, List.append_assoc,
        List.getLast?_append] at hc
      have hjoin := pyJoin_data_ne_nil (y :: rest) (by simp) hy
      have hor : (String.data "\n" ++ (pyJoin "\n" (y :: rest)).data).getLast? = some c := by
        cases hval : (String.data "\n" ++ (pyJoin "\n" (y :: rest)).data).getLast? with
        | none =>
          rw [List.getLast?_eq_none_iff] at hval
          rcases List.append_eq_nil.mp hval with ⟨h1, _⟩
          simp at h1
        | some d =>
          rw [hval] at hc
          simp only [Option.or, Option.some.injEq] at hc
          subst hc
          rfl
      rw [List.getLast?_append] at hor
      cases hval2 : (pyJoin "\n" (y :: rest)).data.getLast? with
      | none => exact absurd (List.getLast?_eq_none_iff.mp hval2) hjoin
      | some d =>
        rw [hval2] at hor
        simp only [Option.or, Option.some.injEq] at hor
        subst hor
        obtain ⟨z, hz, hz2⟩ := ih hy hval2
        exact ⟨z, List.mem_cons_of_mem _ hz, hz2⟩

theorem pyStrip_join_of_stripped (lines : List String)
    (h : ∀ x ∈ lines, (∃ t, x = pyStrip t) ∧ x ≠ "") :
    pyStrip (pyJoin "\n" lines) = pyJoin "\n" lines := by
  have hdata : ∀ x ∈ lines, x.data ≠ [] := by
    intro x hx
    intro habs
    have : x = "" := by
      cases x
      simp at habs
      simp [habs]
    exact (h x hx).2 this
  cases lines with
  | nil => rfl
  | cons x ys =>
    unfold pyStrip
    have hends : ∀ z ∈ x :: ys, (∀ c, z.data.head? = some c → pyWs c = false) ∧
        (∀ c, z.data.getLast? = some c → pyWs c = false) := by
      intro z hz
      obtain ⟨⟨t, ht⟩, _⟩ := h z hz
      constructor
      · intro c hc
        rw [ht] at hc
        exact stripBoth_head pyWs t.data c hc
      · intro c hc
        rw [ht] at hc
        exact stripBoth_getLast pyWs t.data c hc
    have hh : ∀ c, (pyJoin "\n" (x :: ys)).data.head? = some c → pyWs c = false := by
      intro c hc
      obtain ⟨z, hz, hz2⟩ := pyJoin_head (x :: ys) c hdata hc
      exact (hends z hz).1 c hz2
    have hl : ∀ c, (pyJoin "\n" (x :: ys)).data.getLast? = some c → pyWs c = false := by
      intro c hc
      obtain ⟨z, hz, hz2⟩ := pyJoin_getLast (x :: ys) c hdata hc
      exact (hends z hz).2 c hz2
    rw [stripBoth_eq_self pyWs _ hh hl]

theorem sumGo_run (stop : String) (tail : List String) (body : List String)
    (lines : List String)
    (hbody : ∀ t ∈ body, pyStrip t ≠ "" ∧ isRepeatedHeader (pyStrip t) = false ∧
      primaryBreak (pyStrip t) = false)
    (hchain : List.Chain' (fun a b => a ≠ b) (body.map pyStrip))
    (hfirst : ∀ b bs, body.map pyStrip = b :: bs → lines.getLast? ≠ some b)
    (hstop1 : isRepeatedHeader (pyStrip stop) = false)
    (hstop2 : primaryBreak (pyStrip stop) = true) :
    sumGo (body ++ stop :: tail) lines = lines ++ body.map pyStrip := by
  induction body generalizing lines with
  | nil =>
    have hne : pyStrip stop ≠ "" := by
      intro h
      rw [h] at hstop2
      exact absurd hstop2 (by decide)
    simp only [List.nil_append, List.map_nil, List.append_nil, sumGo, hstop1,
      Bool.false_eq_true, if_false, if_neg hne, if_pos hstop2]
  | cons b bs ih =>
    obtain ⟨hb1, hb2, hb3⟩ := hbody b (by simp)
    have hlast : ¬ (lines.getLast? = some (pyStrip b)) := hfirst _ _ rfl
    rw [List.cons_append]
    show (if isRepeatedHeader (pyStrip b) then sumGo (bs ++ stop :: tail) lines
      else if pyStrip b = "" then sumGo (bs ++ stop :: tail) lines
      else if primaryBreak (pyStrip b) then lines
      else if lines.getLast? = some (pyStrip b) then sumGo (bs ++ stop :: tail) lines
      else sumGo (bs ++ stop :: tail) (lines ++ [pyStrip b])) = lines ++ (b :: bs).map pyStrip
    rw [hb2, if_neg (by simp), if_neg hb1, hb3, if_neg (by simp), if_neg hlast]
    have hchain2 : List.Chain' (fun a b => a ≠ b) (bs.map pyStrip) := by
      have := hchain
      rw [List.map_cons] at this
      exact this.tail
    have hfirst2 : ∀ b2 bs2, bs.map pyStrip = b2 :: bs2 →
        (lines ++ [pyStrip b]).getLast? ≠ some b2 := by
      intro b2 bs2 hmap
      rw [List.getLast?_concat]
      intro habs
      have hb2eq : pyStrip b = b2 := by
        injection habs
      have := hchain
      rw [List.map_cons, hmap, List.chain'_cons] at this
      exact this.1 hb2eq
    rw [ih (lines ++ [pyStrip b]) (fun t ht => hbody t (List.mem_cons_of_mem _ ht))
      hchain2 hfirst2]
    simp

theorem findSummaryIdx_append (pre rest : List String) (hdr : String)
    (hpre : ∀ t ∈ pre, hasSummaryPhrase t = false)
    (hhdr : hasSummaryPhrase hdr = true) :
    findSummaryIdx (pre ++ hdr :: rest) = some pre.length := by
  induction pre with
  | nil => simp [findSummaryIdx, hhdr]
  | cons p ps ih =>
    rw [List.cons_append]
    show (if hasSummaryPhrase p then some 0
      else (findSummaryIdx (ps ++ hdr :: rest)).map (· + 1)) = some (p :: ps).length
    rw [hpre p (by simp), if_neg (by simp),
      ih (fun t ht => hpre t (List.mem_cons_of_mem _ ht))]
    simp

theorem mem_candFold (db : List String) (i : Nat) (cands : List String)
    (acc : List (String × Nat)) (q : String × Nat)
    (hq : q ∈ cands.foldl
      (fun a c => if db.contains c && !((a.map Prod.fst).contains c) then a ++ [(c, i)] else a)
      acc) :
    q ∈ acc ∨ (db.contains q.1 = true ∧ q.1 ∈ cands ∧ q.2 = i) := by
  induction cands generalizing acc with
  | nil => exact Or.inl hq
  | cons c cs ih =>
    rw [List.foldl_cons] at hq
    by_cases h : db.contains c && !((acc.map Prod.fst).contains c)
    · rw [if_pos h] at hq
      rcases ih _ hq with h2 | h2
      · rcases List.mem_append.mp h2 with h3 | h3
        · exact Or.inl h3
        · have hqc : q = (c, i) := by simpa using h3
          subst hqc
          exact Or.inr ⟨(Bool.and_eq_true _ _).mp h |>.1, by simp, rfl⟩
      · exact Or.inr ⟨h2.1, List.mem_cons_of_mem _ h2.2.1, h2.2.2⟩
    · rw [if_neg h] at hq
      rcases ih _ hq with h2 | h2
      · exact Or.inl h2
      · exact Or.inr ⟨h2.1, List.mem_cons_of_mem _ h2.2.1, h2.2.2⟩

theorem mem_collectGo (db blocks : List String) (fuel : Nat) :
    ∀ (i : Nat) (acc : List (String × Nat)) (idx : Option Nat) (q : String × Nat),
    q ∈ (collectGo db blocks fuel i acc idx).1 →
    q ∈ acc ∨ ∃ j b, blocks.get? j = some b ∧ containsCI b "clauses affected" = true ∧
      db.contains q.1 = true ∧ q.1 ∈ clauseCandidates blocks j := by
  induction fuel with
  | zero =>
    intro i acc idx q hq
    exact Or.inl hq
  | succ fuel ih =>
    intro i acc idx q hq
    unfold collectGo at hq
    cases hget : blocks.get? i with
    | none =>
      simp only [hget] at hq
      exact Or.inl hq
    | some text =>
      simp only [hget] at hq
      by_cases hca : containsCI text "clauses affected" = true
      · rw [if_pos hca] at hq
        rcases ih _ _ _ _ hq with h | h
        · rcases mem_candFold db i _ acc q h with h2 | h2
          · exact Or.inl h2
          · exact Or.inr ⟨i, text, hget, hca, h2.1, h2.2.1⟩
        · exact Or.inr h
      · rw [if_neg hca] at hq
        exact ih _ _ _ _ hq

/-! ### Claim C6 -/

/-- C6: whenever `search_docx_for_clauses` returns a clause, that clause is a
member of the clause set and is one of the cleaned candidates extracted from
the window formed by some block containing the case-insensitive phrase
`clauses affected` together with up to the next five blocks; and on the
block `"Clauses Affected: 6.4.2.1a, 9.9.9"` the matcher returns `6.4.2.1a`
against `{"6.4.2.1a"}`, returns `9.9.9` against `{"9.9.9"}`, returns absent
against `{"1.1"}`, and returns the first matching candidate in window order
(`6.4.2.1a`) when both clauses are in the set. -/
theorem search_docx_clause_detection (db blocks : List String) (c s : String)
    (hres : search_docx_for_clauses db blocks = some (c, s)) :
    (db.contains c = true ∧ ∃ j b, blocks.get? j = some b ∧
      containsCI b "clauses affected" = true ∧ c ∈ clauseCandidates blocks j) ∧
    (search_docx_for_clauses ["6.4.2.1a"] ["Clauses Affected: 6.4.2.1a, 9.9.9"]).map
      Prod.fst = some "6.4.2.1a" ∧
    (search_docx_for_clauses ["9.9.9"] ["Clauses Affected: 6.4.2.1a, 9.9.9"]).map
      Prod.fst = some "9.9.9" ∧
    search_docx_for_clauses ["1.1"] ["Clauses Affected: 6.4.2.1a, 9.9.9"] = none ∧
    (search_docx_for_clauses ["9.9.9", "6.4.2.1a"]
      ["Clauses Affected: 6.4.2.1a, 9.9.9"]).map Prod.fst = some "6.4.2.1a" := by
  refine ⟨?_, by decide, by decide, by decide, by decide⟩
  unfold search_docx_for_clauses at hres
  cases hscan : collectGo db blocks blocks.length 0 [] none with
  | mk pot caIdx =>
    rw [hscan] at hres
    cases pot with
    | nil => simp at hres
    | cons p rest =>
      cases p with
      | mk c0 j0 =>
        simp only [Option.some.injEq, Prod.mk.injEq] at hres
        obtain ⟨hc0, _⟩ := hres
        subst hc0
        have hp : (c0, j0) ∈ (collectGo db blocks blocks.length 0 [] none).1 := by
          rw [hscan]
          exact List.mem_cons_self _ _
        rcases mem_collectGo db blocks blocks.length 0 [] none (c0, j0) hp with h | h
        · simp at h
        · obtain ⟨j, b, h1, h2, h3, h4⟩ := h
          exact ⟨h3, j, b, h1, h2, h4⟩

/-- Witness for C6 at the spec's example document. -/
theorem search_docx_clause_detection_witness :
    ((["6.4.2.1a"] : List String).contains "6.4.2.1a" = true ∧
      ∃ j b, (["Clauses Affected: 6.4.2.1a, 9.9.9"] : List String).get? j = some b ∧
        containsCI b "clauses affected" = true ∧
        "6.4.2.1a" ∈ clauseCandidates ["Clauses Affected: 6.4.2.1a, 9.9.9"] j) ∧
    (search_docx_for_clauses ["6.4.2.1a"] ["Clauses Affected: 6.4.2.1a, 9.9.9"]).map
      Prod.fst = some "6.4.2.1a" ∧
    (search_docx_for_clauses ["9.9.9"] ["Clauses Affected: 6.4.2.1a, 9.9.9"]).map
      Prod.fst = some "9.9.9" ∧
    search_docx_for_clauses ["1.1"] ["Clauses Affected: 6.4.2.1a, 9.9.9"] = none ∧
    (search_docx_for_clauses ["9.9.9", "6.4.2.1a"]
      ["Clauses Affected: 6.4.2.1a, 9.9.9"]).map Prod.fst = some "6.4.2.1a" :=
  search_docx_clause_detection ["6.4.2.1a"] ["Clauses Affected: 6.4.2.1a, 9.9.9"]
    "6.4.2.1a" "" (by decide)

/-! ### Claim C7 -/

/-- C7: when a clause match exists and the document contains a summary
header, the returned summary is the newline-join of the stripped non-empty
blocks following the first summary-header block — preceding blocks contain
no summary phrase, repeated-header blocks are excluded by hypothesis, no
block repeats its predecessor, and fewer than ten blocks precede the first
block that the primary header heuristic classifies as a new section header —
stopping before that header block.  In particular blocks
`["Summary of change:", "First line.", "Second line.",
"CONSEQUENCES IF NOT APPROVED:", "ignored"]` after a matched
`Clauses Affected` block yield exactly `"First line.\nSecond line."`
(the witness instantiates exactly this document). -/
theorem search_docx_summary_extraction (db : List String)
    (pre body tail : List String) (hdr stop : String) (c s : String)
    (hpre : ∀ t ∈ pre, hasSummaryPhrase t = false)
    (hhdr : hasSummaryPhrase hdr = true)
    (hbody : ∀ t ∈ body, pyStrip t ≠ "" ∧ isRepeatedHeader (pyStrip t) = false ∧
      primaryBreak (pyStrip t) = false)
    (hchain : List.Chain' (fun a b => a ≠ b) (body.map pyStrip))
    (hlen : body.length < 10)
    (hstop1 : isRepeatedHeader (pyStrip stop) = false)
    (hstop2 : primaryBreak (pyStrip stop) = true)
    (hres : search_docx_for_clauses db (pre ++ hdr :: (body ++ stop :: tail)) =
      some (c, s)) :
    s = pyJoin "\n" (body.map pyStrip) := by
  have hfind : findSummaryIdx (pre ++ hdr :: (body ++ stop :: tail)) =
      some pre.length := findSummaryIdx_append pre _ hdr hpre hhdr
  have hdrop : (pre ++ hdr :: (body ++ stop :: tail)).drop (pre.length + 1) =
      body ++ stop :: tail := by
    rw [show pre ++ hdr :: (body ++ stop :: tail) =
      (pre ++ [hdr]) ++ (body ++ stop :: tail) by simp]
    rw [show pre.length + 1 = (pre ++ [hdr]).length by simp]
    exact List.drop_left _ _
  obtain ⟨tail2, htake⟩ : ∃ tail2 : List String,
      (body ++ stop :: tail).take 10 = body ++ stop :: tail2 := by
    obtain ⟨k, hk⟩ : ∃ k, 10 - body.length = k + 1 := ⟨10 - body.length - 1, by omega⟩
    refine ⟨tail.take k, ?_⟩
    rw [List.take_append_eq_append_take, List.take_of_length_le (le_of_lt hlen), hk]
    rfl
  have hsummary : processSummaryLines
      (((pre ++ hdr :: (body ++ stop :: tail)).drop (pre.length + 1)).take 10) =
      pyJoin "\n" (body.map pyStrip) := by
    rw [hdrop, htake]
    unfold processSummaryLines
    rw [sumGo_run stop tail2 body [] hbody hchain (by intro b bs _; simp) hstop1 hstop2]
    rw [List.nil_append]
    refine pyStrip_join_of_stripped (body.map pyStrip) ?_
    intro x hx
    obtain ⟨t, ht, rfl⟩ := List.mem_map.mp hx
    exact ⟨⟨t, rfl⟩, (hbody t ht).1⟩
  unfold search_docx_for_clauses at hres
  cases hscan : collectGo db (pre ++ hdr :: (body ++ stop :: tail))
      (pre ++ hdr :: (body ++ stop :: tail)).length 0 [] none with
  | mk pot caIdx =>
    rw [hscan] at hres
    cases pot with
    | nil => simp at hres
    | cons p rest =>
      cases p with
      | mk c0 j0 =>
        simp only [hfind, Option.some.injEq, Prod.mk.injEq] at hres
        rw [← hres.2]
        exact hsummary

/-- Witness for C7: the spec's example blocks, preceded by a matched
`Clauses Affected` block, produce exactly the two-line summary. -/
theorem search_docx_summary_extraction_witness :
    ("First line.\nSecond line." : String) =
      pyJoin "\n" (["First line.", "Second line."].map pyStrip) :=
  search_docx_summary_extraction ["6.4"] ["Clauses Affected: 6.4"]
    ["First line.", "Second line."] ["ignored"] "Summary of change:"
    "CONSEQUENCES IF NOT APPROVED:" "6.4" "First line.\nSecond line."
    (by decide) (by decide) (by decide)
    (by
      rw [show List.map pyStrip ["First line.", "Second line."] =
        ["First line.", "Second line."] from by decide]
      exact List.chain'_cons.mpr ⟨by decide, List.chain'_singleton _⟩)
    (by decide) (by decide) (by decide) (by decide)

/-! ### Claim C8 -/

/-- C8 counterexample.  The claim asserts that the fallback strategy's
looks-like-a-section-header test equals the primary strategy's test on every
line.  On a line of more than fifty characters ending with a colon the
primary test (colon rule bounded to 50 characters, with benign-phrase and
keyword exclusions) says `false` while the fallback test
(`endswith(':')` with no length bound and no exclusions) says `true`. -/
theorem header_heuristic_counterexample :
    primaryBreak
      "this line is definitely longer than fifty characters and it ends with a colon:" =
      false ∧
    fallbackBreak
      "this line is definitely longer than fifty characters and it ends with a colon:" =
      true ∧
    primaryBreak
      "this line is definitely longer than fifty characters and it ends with a colon:" ≠
    fallbackBreak
      "this line is definitely longer than fifty characters and it ends with a colon:" := by
  refine ⟨by decide, by decide, by decide⟩

/-- C8 (amended): the fallback strategy collects non-header-looking text
from up to ~15 blocks after the `clauses affected` location, but its header
test is only one-sidedly related to the primary strategy's: every line the
primary heuristic classifies as a section header is also classified as one
by the fallback heuristic (which omits the benign-phrase exclusions and the
50-character bound of the colon rule), and not conversely. -/
theorem header_heuristic_amended (t : String) (h : primaryBreak t = true) :
    fallbackBreak t = true := by
  unfold primaryBreak at h
  rcases Bool.or_eq_true _ _ |>.mp h with h1 | h1
  · unfold isSectionHeaderUpper at h1
    unfold fallbackBreak
    simp only [Bool.and_eq_true] at h1
    have hlen : t.data.length < 100 := of_decide_eq_true h1.1.2
    simp [h1.1.1]
    exact Or.inl hlen
  · unfold endsWithColonHeader at h1
    unfold fallbackBreak
    simp only [Bool.and_eq_true] at h1
    simp [h1.1.1.1]

/-- Witness for the amended C8 at a short all-caps header line. -/
theorem header_heuristic_amended_witness : fallbackBreak "FOO:" = true :=
  header_heuristic_amended "FOO:" (by decide)
